import Mathlib

/-!
A verification development for the document-processing backend.

The definitions below are shallow embeddings of the Python source:

* `splitTextIntoChunks` / `splitTextRun` embed
  `EmbeddingService._split_text_into_chunks`
  (`app/services/embedding_service.py`), with Python strings modelled as
  `List Char`, `str.rfind(sub, lo, hi)` as `pyRfind`, `str.strip()` as
  `pyStrip` (over the ASCII whitespace characters), and the `while` loop
  as `chunkLoop`, whose `Nat` budget mirrors the source's own
  10,000-iteration safety ceiling (budget = 10000 minus the number of
  completed iterations; budget exhaustion is exactly the source's
  "infinite loop detected" break, reported in the `ceilingHit` flag).
* `checkBatchCompletion` embeds
  `ProcessingService._check_batch_completion`
  (`app/services/processing_service.py`), as a pure function of the list
  of member-file status strings.
* `approveFileForLibrary` / `rejectFile` embed the review gateway
  (`app/services/processing_service.py`); timestamp bookkeeping fields
  are omitted.
* `combineMetadata` / `savedCitation` / `saveMetadata` embed the
  LLM/regex metadata merge of `AIService._extract_metadata_with_ai`
  (lines combining `pattern_metadata` into `metadata`) and
  `AIService._save_metadata` (`app/services/ai_service.py`).  The claim
  quantifies over pattern-extraction *results*, so `PatternMetadata` is
  the output type of `_extract_pattern_metadata` and the regexes
  themselves are not re-implemented; rate values are carried opaquely as
  strings, since the merge never computes with them.
* `retryFileProcessing` embeds the retry endpoint
  (`app/api/processing.py`, `retry_file_processing`) as a pure function
  of the file's current status and retry count.
* `generateEmbeddings` embeds the provider-unconfigured dispatch of
  `EmbeddingService.generate_embeddings`; the configured path (network
  calls) is abstracted as an arbitrary continuation `rest`.
* `processSingleFile` embeds the duplicate pre-check of
  `FileService._process_single_file` over a relational-store state
  (`UploadState`); generated ids and the storage path are passed in as
  parameters in place of `uuid4()`.
* `updateDocumentMetadata` embeds the metadata-edit endpoint
  (`app/api/documents.py`, `update_document_metadata`).
-/

set_option autoImplicit false
set_option maxRecDepth 100000

namespace RagBackend

/-! ### File status vocabulary (`app/models/enums.py`, `FileStatus`) -/

/-- The `FileStatus` enum of `app/models/enums.py`; the docstring there says
it matches the database constraint exactly, so these are the only status
strings a `processing_files` row can carry. -/
inductive FileStatus where
  | uploading
  | uploaded
  | uploadFailed
  | queued
  | extractingText
  | extractionFailed
  | analyzingMetadata
  | analysisFailed
  | generatingEmbeddings
  | embeddingFailed
  | processingComplete
  | reviewPending
  | underReview
  | approved
  | rejected
  | duplicate
  | cancelled
  | retryPending
  deriving DecidableEq, Repr

/-- The string value of each `FileStatus` member, as stored in the database. -/
def FileStatus.val : FileStatus → String
  | .uploading => "uploading"
  | .uploaded => "uploaded"
  | .uploadFailed => "upload_failed"
  | .queued => "queued"
  | .extractingText => "extracting_text"
  | .extractionFailed => "extraction_failed"
  | .analyzingMetadata => "analyzing_metadata"
  | .analysisFailed => "analysis_failed"
  | .generatingEmbeddings => "generating_embeddings"
  | .embeddingFailed => "embedding_failed"
  | .processingComplete => "processing_complete"
  | .reviewPending => "review_pending"
  | .underReview => "under_review"
  | .approved => "approved"
  | .rejected => "rejected"
  | .duplicate => "duplicate"
  | .cancelled => "cancelled"
  | .retryPending => "retry_pending"

/-! ### Batch completion (`ProcessingService._check_batch_completion`) -/

/-- The batch update written by `_check_batch_completion` when every file is
in a final state: the new batch status string together with the
`completed_files` and `failed_files` counts. -/
structure BatchUpdate where
  status : String
  completedFiles : Nat
  failedFiles : Nat
  deriving DecidableEq, Repr

/-- Embeds `ProcessingService._check_batch_completion` as a pure function of
the list of member-file status strings (the `status` column of the batch's
`processing_files` rows).  Returns `none` when the function performs no
batch update (empty batch, or some file still processing), and
`some u` when it writes the update `u` to the `processing_jobs` row. -/
def checkBatchCompletion (statuses : List String) : Option BatchUpdate :=
  if statuses = [] then none
  else
    let totalFiles := statuses.length
    let completedFiles := statuses.count "review_pending" + statuses.count "approved"
    let failedFiles :=
      statuses.count "extraction_failed" + statuses.count "analysis_failed"
        + statuses.count "embedding_failed"
    let processingFiles : Int := (totalFiles : Int) - completedFiles - failedFiles
    if processingFiles = 0 then
      let finalStatus :=
        if failedFiles = 0 then "processing_complete"
        else if 0 < completedFiles then "partially_completed"
        else "failed"
      some ⟨finalStatus, completedFiles, failedFiles⟩
    else none

/-! ### Chunker (`EmbeddingService._split_text_into_chunks`) -/

/-- The chunking configuration held by `EmbeddingService`: `chunk_size` and
`chunk_overlap` as set up in `EmbeddingService.__init__`. -/
structure ChunkConfig where
  chunkSize : Nat
  chunkOverlap : Nat
  deriving DecidableEq, Repr

/-- In `EmbeddingService.__init__`, `chunk_size` comes straight from settings
and `chunk_overlap` is clamped to at most a quarter of the chunk size
(`min(settings.chunk_overlap, settings.chunk_size // 4)`). -/
def mkChunkConfig (settingsChunkSize settingsChunkOverlap : Nat) : ChunkConfig :=
  { chunkSize := settingsChunkSize
    chunkOverlap := min settingsChunkOverlap (settingsChunkSize / 4) }

/-- The configuration under the default settings of `app/core/config.py`
(`chunk_size = 1000`, `chunk_overlap = 200`). -/
def defaultChunkConfig : ChunkConfig := mkChunkConfig 1000 200

/-- ASCII whitespace, the characters removed by Python's `str.strip()`
(restricted to ASCII; the documents' exotic Unicode spaces are not
modelled). -/
def pyWs (c : Char) : Bool :=
  c = ' ' || c = '\t' || c = '\n' || c = '\r' || c = '\x0b' || c = '\x0c'

/-- Python `str.strip()`: drop whitespace from both ends. -/
def pyStrip (l : List Char) : List Char :=
  ((l.dropWhile pyWs).reverse.dropWhile pyWs).reverse

/-- Python slicing `text[a:b]` for `a ≤ b` (out-of-range bounds clamp). -/
def pySlice (l : List Char) (a b : Nat) : List Char :=
  (l.drop a).take (b - a)

/-- Whether `needle` occurs in `text` starting exactly at index `i`. -/
def sliceMatch (text needle : List Char) (i : Nat) : Bool :=
  (text.drop i).take needle.length == needle

/-- Helper for `pyRfind`: try candidate start indices `i, i-1, …, lo` in
descending order and return the first (i.e. highest) match, `-1` if none. -/
def pyRfindAux (text needle : List Char) (lo : Nat) : Nat → Int
  | 0 => if lo == 0 && sliceMatch text needle 0 then 0 else -1
  | i + 1 =>
    if i + 1 < lo then -1
    else if sliceMatch text needle (i + 1) then ((i : Int) + 1)
    else pyRfindAux text needle lo i

/-- Python `text.rfind(needle, lo, hi)` for `0 ≤ lo ≤ hi`: the largest
index `j` with `lo ≤ j` and `j + len(needle) ≤ min(hi, len(text))` at which
`needle` occurs, else `-1`. -/
def pyRfind (text needle : List Char) (lo hi : Nat) : Int :=
  let hiC := min hi text.length
  if needle.length ≤ hiC then pyRfindAux text needle lo (hiC - needle.length)
  else -1

/-- The chunk-boundary computation of one loop iteration of
`_split_text_into_chunks`: candidate end `start + chunk_size`, snapped back
to a paragraph break (`"\n\n"`), else a sentence break (`". "`), searched in
the second half of the chunk, when the candidate end is interior. -/
def chunkBoundary (cfg : ChunkConfig) (text : List Char) (start : Nat) : Nat :=
  let e := start + cfg.chunkSize
  let minChunkEnd := start + cfg.chunkSize / 2
  if e < text.length && minChunkEnd < e then
    let p := pyRfind text ['\n', '\n'] minChunkEnd e
    if (start : Int) < p then p.toNat
    else
      let s := pyRfind text ['.', ' '] minChunkEnd e
      if (start : Int) < s then s.toNat + 1 else e
  else e

/-- Outcome of one loop iteration of `_split_text_into_chunks`: either the
loop breaks (`end >= len(text)`), or it continues with a new cursor. -/
inductive ChunkStep where
  | stop (chunks : List (List Char))
  | next (chunks : List (List Char)) (nextStart : Nat)
  deriving DecidableEq, Repr

/-- One loop iteration body of `_split_text_into_chunks`: compute the
boundary, emit the stripped slice when non-empty (chunks are accumulated in
reverse), and either break or advance the cursor to `end − overlap`, bumped
to `start + max(50, chunk_size // 20)` whenever that would not move the
cursor strictly forward. -/
def chunkStep (cfg : ChunkConfig) (text : List Char) (start : Nat)
    (acc : List (List Char)) : ChunkStep :=
  let e := chunkBoundary cfg text start
  let chunk := pyStrip (pySlice text start e)
  let acc2 := if chunk.isEmpty then acc else chunk :: acc
  if text.length ≤ e then .stop acc2
  else
    let ns := e - cfg.chunkOverlap
    let ns := if ns ≤ start then start + max 50 (cfg.chunkSize / 20) else ns
    .next acc2 ns

/-- The cursor that one iteration starting at `start` would continue with
(`none` when the iteration breaks the loop instead). -/
def nextCursor (cfg : ChunkConfig) (text : List Char) (start : Nat) : Option Nat :=
  match chunkStep cfg text start [] with
  | .stop _ => none
  | .next _ ns => some ns

/-- The `while start < len(text)` loop of `_split_text_into_chunks`.  The
`Nat` budget is `10000 −` the number of completed iterations, so budget
exhaustion with the loop condition still true is exactly the source's
`iteration_count > 10000` safety break; the returned flag records whether
that break fired. -/
def chunkLoop (cfg : ChunkConfig) (text : List Char) :
    Nat → Nat → List (List Char) → List (List Char) × Bool
  | 0, start, acc =>
    if text.length ≤ start then (acc.reverse, false) else (acc.reverse, true)
  | b + 1, start, acc =>
    if text.length ≤ start then (acc.reverse, false)
    else
      match chunkStep cfg text start acc with
      | .stop acc2 => (acc2.reverse, false)
      | .next acc2 ns => chunkLoop cfg text b ns acc2

/-- Result of a full `_split_text_into_chunks` run: the chunk list, plus
whether the 10,000-iteration safety ceiling fired. -/
structure ChunkRun where
  chunks : List (List Char)
  ceilingHit : Bool
  deriving DecidableEq, Repr

/-- Result of `EmbeddingService._split_text_into_chunks`, instrumented with the
ceiling flag: a text of length at most `chunk_size` is returned as a single
chunk unchanged; otherwise the chunking loop runs from cursor 0. -/
def splitTextRun (cfg : ChunkConfig) (text : List Char) : ChunkRun :=
  if text.length ≤ cfg.chunkSize then ⟨[text], false⟩
  else
    let r := chunkLoop cfg text 10000 0 []
    ⟨r.1, r.2⟩

/-- Embeds `EmbeddingService._split_text_into_chunks`: the returned chunk list. -/
def splitTextIntoChunks (cfg : ChunkConfig) (text : List Char) : List (List Char) :=
  (splitTextRun cfg text).chunks

/-! ### Chunker lemmas -/

theorem pyRfindAux_bounds (text needle : List Char) (lo : Nat) :
    ∀ i : Nat, pyRfindAux text needle lo i ≠ -1 →
      ∃ j : Nat, pyRfindAux text needle lo i = (j : Int) ∧ lo ≤ j ∧ j ≤ i := by
  intro i
  induction i with
  | zero =>
    intro h
    simp only [pyRfindAux] at h ⊢
    by_cases hc : (lo == 0 && sliceMatch text needle 0) = true
    · refine ⟨0, by rw [if_pos hc]; simp, ?_, le_refl 0⟩
      have hlo : lo = 0 := by
        have := ((Bool.and_eq_true _ _).mp hc).1
        simpa using this
      omega
    · rw [if_neg hc] at h
      exact absurd rfl h
  | succ i ih =>
    intro h
    simp only [pyRfindAux] at h ⊢
    by_cases h1 : i + 1 < lo
    · rw [if_pos h1] at h
      exact absurd rfl h
    · rw [if_neg h1] at h ⊢
      by_cases h2 : sliceMatch text needle (i + 1) = true
      · refine ⟨i + 1, by rw [if_pos h2]; push_cast; ring, by omega, le_refl _⟩
      · rw [if_neg h2] at h ⊢
        obtain ⟨j, hj, hlo, hle⟩ := ih h
        exact ⟨j, hj, hlo, Nat.le_succ_of_le hle⟩

theorem pyRfind_bounds (text needle : List Char) (lo hi : Nat)
    (h : pyRfind text needle lo hi ≠ -1) :
    ∃ j : Nat, pyRfind text needle lo hi = (j : Int) ∧ lo ≤ j ∧
      j + needle.length ≤ min hi text.length := by
  unfold pyRfind at *
  by_cases hlen : needle.length ≤ min hi text.length
  · rw [if_pos hlen] at h ⊢
    obtain ⟨j, hj, hlo, hle⟩ := pyRfindAux_bounds text needle lo _ h
    exact ⟨j, hj, hlo, by omega⟩
  · rw [if_neg hlen] at h
    exact absurd rfl h

theorem chunkBoundary_le (cfg : ChunkConfig) (text : List Char) (start : Nat) :
    chunkBoundary cfg text start ≤ start + cfg.chunkSize := by
  simp only [chunkBoundary]
  split
  · next hcond =>
    have hlt : start + cfg.chunkSize / 2 < start + cfg.chunkSize :=
      of_decide_eq_true ((Bool.and_eq_true _ _).mp hcond).2
    split
    · next hp =>
      have hne : pyRfind text ['\n', '\n'] (start + cfg.chunkSize / 2)
          (start + cfg.chunkSize) ≠ -1 := by
        intro heq
        rw [heq] at hp
        omega
      obtain ⟨j, hj, _, hle⟩ := pyRfind_bounds _ _ _ _ hne
      rw [hj]
      simp only [Int.toNat_ofNat]
      have : j + 2 ≤ start + cfg.chunkSize := by
        simpa using le_trans hle (min_le_left _ _)
      omega
    · split
      · next hs =>
        have hne : pyRfind text ['.', ' '] (start + cfg.chunkSize / 2)
            (start + cfg.chunkSize) ≠ -1 := by
          intro heq
          rw [heq] at hs
          omega
        obtain ⟨j, hj, _, hle⟩ := pyRfind_bounds _ _ _ _ hne
        rw [hj]
        simp only [Int.toNat_ofNat]
        have : j + 2 ≤ start + cfg.chunkSize := by
          simpa using le_trans hle (min_le_left _ _)
        omega
      · exact le_refl _
  · exact le_refl _

theorem chunkBoundary_ge (cfg : ChunkConfig) (text : List Char) (start : Nat) :
    start + cfg.chunkSize / 2 ≤ chunkBoundary cfg text start := by
  simp only [chunkBoundary]
  split
  · next hcond =>
    split
    · next hp =>
      have hne : pyRfind text ['\n', '\n'] (start + cfg.chunkSize / 2)
          (start + cfg.chunkSize) ≠ -1 := by
        intro heq
        rw [heq] at hp
        omega
      obtain ⟨j, hj, hlo, _⟩ := pyRfind_bounds _ _ _ _ hne
      rw [hj]
      simpa using hlo
    · split
      · next hs =>
        have hne : pyRfind text ['.', ' '] (start + cfg.chunkSize / 2)
            (start + cfg.chunkSize) ≠ -1 := by
          intro heq
          rw [heq] at hs
          omega
        obtain ⟨j, hj, hlo, _⟩ := pyRfind_bounds _ _ _ _ hne
        rw [hj]
        simp only [Int.toNat_ofNat]
        omega
      · omega
  · omega

theorem chunkBoundary_lt_length (cfg : ChunkConfig) (text : List Char) (start : Nat)
    (h : chunkBoundary cfg text start < text.length) :
    start + cfg.chunkSize < text.length := by
  simp only [chunkBoundary] at h
  split at h
  · next hcond =>
    exact of_decide_eq_true ((Bool.and_eq_true _ _).mp hcond).1
  · exact h

theorem chunkStep_stop_le (cfg : ChunkConfig) (text : List Char) (start : Nat)
    (acc acc2 : List (List Char))
    (h : chunkStep cfg text start acc = ChunkStep.stop acc2) :
    text.length ≤ start + cfg.chunkSize := by
  simp only [chunkStep] at h
  split at h
  · next hle => exact le_trans hle (chunkBoundary_le cfg text start)
  · simp at h

theorem chunkStep_next_facts (text : List Char) (start : Nat)
    (acc acc2 : List (List Char)) (ns : Nat)
    (h : chunkStep defaultChunkConfig text start acc = ChunkStep.next acc2 ns) :
    start + 1000 < text.length ∧ start + 300 ≤ ns ∧ ns ≤ start + 800 := by
  have hb_le := chunkBoundary_le defaultChunkConfig text start
  have hb_ge := chunkBoundary_ge defaultChunkConfig text start
  rw [show defaultChunkConfig.chunkSize = 1000 from rfl] at hb_le
  rw [show defaultChunkConfig.chunkSize / 2 = 500 from rfl] at hb_ge
  simp only [chunkStep] at h
  split at h
  · simp at h
  · next hlt =>
    have hL : chunkBoundary defaultChunkConfig text start < text.length := by omega
    have hcsL := chunkBoundary_lt_length defaultChunkConfig text start hL
    rw [show defaultChunkConfig.chunkSize = 1000 from rfl] at hcsL
    injection h with _ hns
    rw [show defaultChunkConfig.chunkOverlap = 200 from rfl] at hns
    rw [if_neg (by omega)] at hns
    omega

theorem pyStrip_eq_rdrop (m : List Char) :
    pyStrip m = (m.dropWhile pyWs).rdropWhile pyWs := by
  simp [pyStrip, List.rdropWhile]

theorem pyStrip_idem (l : List Char) : pyStrip (pyStrip l) = pyStrip l := by
  rw [pyStrip_eq_rdrop l, pyStrip_eq_rdrop]
  cases hr : (l.dropWhile pyWs).rdropWhile pyWs with
  | nil => simp [List.rdropWhile]
  | cons a t =>
    have hpre := List.rdropWhile_prefix pyWs (l.dropWhile pyWs)
    rw [hr] at hpre
    obtain ⟨s, hs⟩ := hpre
    have hd : l.dropWhile pyWs = a :: (t ++ s) := by
      rw [← hs, List.cons_append]
    have hna : pyWs a = false := by
      have h0 : 0 < (l.dropWhile pyWs).length := by rw [hd]; simp
      have hnot := List.dropWhile_get_zero_not pyWs l h0
      have hget : (l.dropWhile pyWs).get ⟨0, h0⟩ = a := by
        simp [hd]
      rw [hget] at hnot
      simpa using hnot
    rw [List.dropWhile_cons, hna]
    simp only [Bool.false_eq_true, if_false]
    rw [← hr]
    exact List.rdropWhile_idempotent _ _

theorem pyStrip_length_le (l : List Char) : (pyStrip l).length ≤ l.length := by
  have h1 : ∀ m : List Char, (m.dropWhile pyWs).length ≤ m.length := by
    intro m
    induction m with
    | nil => simp
    | cons a t ih =>
      rw [List.dropWhile_cons]
      split
      · exact Nat.le_succ_of_le ih
      · exact le_refl _
  calc (pyStrip l).length
      = (((l.dropWhile pyWs).reverse.dropWhile pyWs)).length := by
        simp [pyStrip]
    _ ≤ (l.dropWhile pyWs).reverse.length := h1 _
    _ = (l.dropWhile pyWs).length := by simp
    _ ≤ l.length := h1 l

/-- A chunk produced by the multi-chunk loop: bounded by `chunk_size`,
non-empty, and already stripped. -/
def GoodChunk (cfg : ChunkConfig) (c : List Char) : Prop :=
  c.length ≤ cfg.chunkSize ∧ c ≠ [] ∧ pyStrip c = c

/-- The chunk accumulator of either `ChunkStep` outcome. -/
def ChunkStep.out : ChunkStep → List (List Char)
  | .stop cs => cs
  | .next cs _ => cs

theorem chunkStep_out_mem (cfg : ChunkConfig) (text : List Char) (start : Nat)
    (acc : List (List Char)) (c : List Char)
    (hc : c ∈ (chunkStep cfg text start acc).out) :
    c ∈ acc ∨ (c = pyStrip (pySlice text start (chunkBoundary cfg text start)) ∧ c ≠ []) := by
  simp only [chunkStep] at hc
  by_cases hemp : (pyStrip (pySlice text start (chunkBoundary cfg text start))).isEmpty = true
  · rw [if_pos hemp] at hc
    split at hc <;> exact Or.inl hc
  · rw [if_neg hemp] at hc
    have hmem : c ∈ pyStrip (pySlice text start (chunkBoundary cfg text start)) :: acc := by
      split at hc <;> exact hc
    rcases List.mem_cons.mp hmem with heq | hin
    · refine Or.inr ⟨heq, ?_⟩
      rw [heq]
      intro hnil
      exact hemp (by rw [hnil]; rfl)
    · exact Or.inl hin

theorem chunkStep_emits_good (cfg : ChunkConfig) (text : List Char) (start : Nat)
    (c : List Char)
    (h : c = pyStrip (pySlice text start (chunkBoundary cfg text start)))
    (hne : c ≠ []) : GoodChunk cfg c := by
  refine ⟨?_, hne, by rw [h, pyStrip_idem]⟩
  rw [h]
  calc (pyStrip (pySlice text start (chunkBoundary cfg text start))).length
      ≤ (pySlice text start (chunkBoundary cfg text start)).length :=
        pyStrip_length_le _
    _ ≤ chunkBoundary cfg text start - start := by
        simp only [pySlice]
        exact List.length_take_le _ _
    _ ≤ cfg.chunkSize := by
        have := chunkBoundary_le cfg text start
        omega

theorem chunkLoop_chunks_good (cfg : ChunkConfig) (text : List Char) :
    ∀ (b start : Nat) (acc : List (List Char)),
      (∀ c ∈ acc, GoodChunk cfg c) →
      ∀ c ∈ (chunkLoop cfg text b start acc).1, GoodChunk cfg c := by
  intro b
  induction b with
  | zero =>
    intro start acc hacc c hc
    simp only [chunkLoop] at hc
    split at hc <;> exact hacc c (List.mem_reverse.mp hc)
  | succ b ih =>
    intro start acc hacc c hc
    simp only [chunkLoop] at hc
    split at hc
    · exact hacc c (List.mem_reverse.mp hc)
    · cases hstep : chunkStep cfg text start acc with
      | stop acc2 =>
        rw [hstep] at hc
        have hout : c ∈ (chunkStep cfg text start acc).out := by
          rw [hstep]
          exact List.mem_reverse.mp hc
        rcases chunkStep_out_mem cfg text start acc c hout with hin | ⟨heq, hne⟩
        · exact hacc c hin
        · exact chunkStep_emits_good cfg text start c heq hne
      | next acc2 ns =>
        rw [hstep] at hc
        refine ih ns acc2 ?_ c hc
        intro d hd
        have hout : d ∈ (chunkStep cfg text start acc).out := by
          rw [hstep]
          exact hd
        rcases chunkStep_out_mem cfg text start acc d hout with hin | ⟨heq, hne⟩
        · exact hacc d hin
        · exact chunkStep_emits_good cfg text start d heq hne

theorem chunkLoop_no_ceiling (text : List Char) :
    ∀ (b : Nat), 1 ≤ b → ∀ (start : Nat) (acc : List (List Char)),
      text.length ≤ start + 300 * b + 700 →
      (chunkLoop defaultChunkConfig text b start acc).2 = false := by
  intro b
  induction b with
  | zero => omega
  | succ b ih =>
    intro _ start acc hlen
    simp only [chunkLoop]
    split
    · rfl
    · next hstart =>
      cases hstep : chunkStep defaultChunkConfig text start acc with
      | stop acc2 => rfl
      | next acc2 ns =>
        obtain ⟨hL, h300, _⟩ := chunkStep_next_facts text start acc acc2 ns hstep
        rcases Nat.eq_zero_or_pos b with hb | hb
        · subst hb
          omega
        · exact ih hb ns acc2 (by omega)

theorem chunkLoop_ceiling (text : List Char) :
    ∀ (b start : Nat) (acc : List (List Char)),
      start + 800 * b + 1000 < text.length →
      (chunkLoop defaultChunkConfig text b start acc).2 = true := by
  intro b
  induction b with
  | zero =>
    intro start acc hlen
    simp only [chunkLoop]
    rw [if_neg (by omega)]
  | succ b ih =>
    intro start acc hlen
    simp only [chunkLoop]
    rw [if_neg (by omega)]
    cases hstep : chunkStep defaultChunkConfig text start acc with
    | stop acc2 =>
      have := chunkStep_stop_le defaultChunkConfig text start acc acc2 hstep
      rw [show defaultChunkConfig.chunkSize = 1000 from rfl] at this
      omega
    | next acc2 ns =>
      obtain ⟨_, _, h800⟩ := chunkStep_next_facts text start acc acc2 ns hstep
      exact ih ns acc2 (by omega)

theorem splitTextRun_ceilingHit_multi (cfg : ChunkConfig) (text : List Char)
    (h : cfg.chunkSize < text.length) :
    (splitTextRun cfg text).ceilingHit = (chunkLoop cfg text 10000 0 []).2 := by
  simp only [splitTextRun]
  rw [if_neg (by omega)]

/-! ### Claim theorems for the chunker (C2, C3, C10) -/

/-- C2, counterexample to the 50MB part: a 9,000,000-character text (well
under 50MB) whose chunking run does reach the 10,000-iteration safety
ceiling, because the cursor advances at most `chunk_size − overlap = 800`
characters per iteration. -/
theorem chunker_ceiling_under_50mb_counterexample :
    (List.replicate 9000000 'a').length < 50000000 ∧
    (splitTextRun defaultChunkConfig (List.replicate 9000000 'a')).ceilingHit = true := by
  have hlen : (List.replicate 9000000 'a').length = 9000000 :=
    List.length_replicate _ _
  refine ⟨by rw [hlen]; norm_num, ?_⟩
  rw [splitTextRun_ceilingHit_multi defaultChunkConfig _ (by rw [hlen]; decide)]
  exact chunkLoop_ceiling _ 10000 0 [] (by rw [hlen]; norm_num)

/-- C2 (amended): with the default configuration, every loop iteration of
`_split_text_into_chunks` that continues advances the cursor by at least
`max(50, chunk_size/20)` characters (so the cursor strictly increases and
the loop terminates), and every input text of length at most 3,000,000
characters completes without ever reaching the 10,000-iteration safety
ceiling (the 50MB bound of the original claim is refuted by the
counterexample above). -/
theorem chunker_progress_and_iteration_bound :
    (∀ (text : List Char) (start : Nat) (acc : List (List Char)),
      match chunkStep defaultChunkConfig text start acc with
      | .next _ ns => start + max 50 (defaultChunkConfig.chunkSize / 20) ≤ ns
      | .stop _ => True) ∧
    (∀ text : List Char, text.length ≤ 3000000 →
      (splitTextRun defaultChunkConfig text).ceilingHit = false) := by
  constructor
  · intro text start acc
    cases hstep : chunkStep defaultChunkConfig text start acc with
    | stop acc2 => trivial
    | next acc2 ns =>
      obtain ⟨_, h300, _⟩ := chunkStep_next_facts text start acc acc2 ns hstep
      rw [show max 50 (defaultChunkConfig.chunkSize / 20) = 50 from rfl]
      omega
  · intro text hlen
    by_cases h1 : text.length ≤ defaultChunkConfig.chunkSize
    · simp only [splitTextRun]
      rw [if_pos h1]
    · simp only [splitTextRun]
      rw [if_neg h1]
      exact chunkLoop_no_ceiling text 10000 (by norm_num) 0 [] (by omega)

/-- Witness for C2's amended theorem at concrete inputs: the empty text for
the per-iteration progress statement, and a 1,500-character text for the
iteration bound. -/
theorem chunker_progress_and_iteration_bound_witness :
    (match chunkStep defaultChunkConfig [] 0 [] with
      | .next _ ns => 0 + max 50 (defaultChunkConfig.chunkSize / 20) ≤ ns
      | .stop _ => True) ∧
    ((List.replicate 1500 'a').length ≤ 3000000 ∧
      (splitTextRun defaultChunkConfig (List.replicate 1500 'a')).ceilingHit = false) :=
  ⟨chunker_progress_and_iteration_bound.1 [] 0 [],
    by rw [List.length_replicate]; norm_num,
    chunker_progress_and_iteration_bound.2 (List.replicate 1500 'a')
      (by rw [List.length_replicate]; norm_num)⟩

/-- C3, counterexample to the stripping part: the 3-character text `" a "`
is at most `chunk_size` long, and the single chunk returned for it is the
input *unstripped* (the single-chunk branch returns `[text]`, not
`[text.strip()]`). -/
theorem chunker_single_chunk_counterexample :
    (" a ".toList).length ≤ defaultChunkConfig.chunkSize ∧
    splitTextIntoChunks defaultChunkConfig (" a ".toList) ≠ [pyStrip (" a ".toList)] := by
  constructor
  · decide
  · decide

/-- C3 (amended): for every text of length at most `chunk_size`,
`_split_text_into_chunks` returns exactly one chunk, equal to the input
text unchanged (not stripped). -/
theorem chunker_single_chunk (cfg : ChunkConfig) (text : List Char)
    (h : text.length ≤ cfg.chunkSize) :
    splitTextIntoChunks cfg text = [text] := by
  simp only [splitTextIntoChunks, splitTextRun]
  rw [if_pos h]

/-- Witness for C3's amended theorem at the concrete text `"hello"`. -/
theorem chunker_single_chunk_witness :
    ("hello".toList).length ≤ defaultChunkConfig.chunkSize ∧
    splitTextIntoChunks defaultChunkConfig ("hello".toList) = ["hello".toList] :=
  ⟨by decide, chunker_single_chunk defaultChunkConfig ("hello".toList) (by decide)⟩

/-- C10: every chunk returned by `_split_text_into_chunks` has length at
most `chunk_size`; and in the multi-chunk case (input longer than
`chunk_size`) every returned chunk is non-empty and carries no leading or
trailing whitespace (stripping it again changes nothing). -/
theorem chunk_size_bound (cfg : ChunkConfig) (text c : List Char)
    (hc : c ∈ splitTextIntoChunks cfg text) :
    c.length ≤ cfg.chunkSize ∧
      (cfg.chunkSize < text.length → c ≠ [] ∧ pyStrip c = c) := by
  by_cases h1 : text.length ≤ cfg.chunkSize
  · simp only [splitTextIntoChunks, splitTextRun] at hc
    rw [if_pos h1] at hc
    have hct : c = text := by simpa using hc
    subst hct
    exact ⟨h1, fun hcontra => absurd h1 (by omega)⟩
  · simp only [splitTextIntoChunks, splitTextRun] at hc
    rw [if_neg h1] at hc
    have hg := chunkLoop_chunks_good cfg text 10000 0 [] (by simp) c hc
    exact ⟨hg.1, fun _ => ⟨hg.2.1, hg.2.2⟩⟩

/-- Witness for C10 at the concrete text `"hi"` and its single chunk. -/
theorem chunk_size_bound_witness :
    (['h', 'i'] : List Char).length ≤ defaultChunkConfig.chunkSize ∧
      (defaultChunkConfig.chunkSize < ("hi".toList).length →
        (['h', 'i'] : List Char) ≠ [] ∧ pyStrip ['h', 'i'] = ['h', 'i']) :=
  chunk_size_bound defaultChunkConfig ("hi".toList) ['h', 'i'] (by decide)

/-! ### Review gateway (`ProcessingService.approve_file_for_library`,
`ProcessingService.reject_file`) and the file/document records -/

/-- The fields of a `processing_files` row touched by the operations under
study (timestamp columns are omitted). -/
structure ProcessingFileRec where
  status : String
  documentId : Option String
  retryCount : Nat
  errorMessage : Option String
  reviewedBy : Option String
  reviewNotes : Option String
  contentHash : String
  deriving DecidableEq, Repr

/-- The fields of a `documents` row touched by the operations under study
(timestamp columns are omitted).  The metadata columns editable through
`update_document_metadata` are all carried as `Option String` (their
database representation after serialisation). -/
structure DocumentRec where
  isReviewed : Bool
  isDeleted : Bool
  reviewedBy : Option String
  reviewNotes : Option String
  contentHash : String
  title : Option String
  docType : Option String
  docCategory : Option String
  authors : Option String
  citation : Option String
  summary : Option String
  caseName : Option String
  caseNumber : Option String
  court : Option String
  jurisdiction : Option String
  practiceArea : Option String
  date : Option String
  deriving DecidableEq, Repr

/-- The result dict of `approve_file_for_library`, together with the
post-states of the file row and the document row (equal to the inputs when
an error was raised before the corresponding update). -/
structure ApproveResult where
  success : Bool
  error : Option String
  file : ProcessingFileRec
  doc : DocumentRec
  deriving DecidableEq, Repr

/-- Embeds `ProcessingService.approve_file_for_library`: raises (returning
`success = False` with the message) when no document is linked or the file
is not in `review_pending`, both checked before any write; otherwise marks
the document reviewed and the file approved. -/
def approveFileForLibrary (f : ProcessingFileRec) (d : DocumentRec)
    (reviewerId : String) (reviewNotes : Option String) : ApproveResult :=
  match f.documentId with
  | none => ⟨false, some "No document linked to processing file", f, d⟩
  | some _ =>
    if f.status ≠ "review_pending" then
      ⟨false, some ("File is not ready for review (status: " ++ f.status ++ ")"), f, d⟩
    else
      let d2 : DocumentRec :=
        { d with isReviewed := true, reviewedBy := some reviewerId, reviewNotes := reviewNotes }
      let f2 : ProcessingFileRec :=
        { f with status := "approved", reviewedBy := some reviewerId, reviewNotes := reviewNotes }
      ⟨true, none, f2, d2⟩

/-- Embeds `ProcessingService.reject_file`: unconditionally sets the file
status to `rejected` and records the reviewer and reason; the function
performs no status check and never touches the document row. -/
def rejectFile (f : ProcessingFileRec) (reviewerId : String)
    (rejectionReason : String) : Bool × ProcessingFileRec :=
  (true,
    { f with status := "rejected", reviewedBy := some reviewerId,
             reviewNotes := some rejectionReason })

/-! ### Retry endpoint (`app/api/processing.py`, `retry_file_processing`) -/

/-- The observable outcome of `retry_file_processing`. -/
inductive RetryResult where
  | rejectedStatus (current : String)
  | rejectedMaxRetries
  | queued (newStatus : String) (newRetryCount : Nat) (errorMessage : Option String)
  deriving DecidableEq, Repr

/-- Embeds `retry_file_processing` as a pure function of the file's current
status and retry count: the allowed-status list is the literal list of the
source (`extraction_failed`, `ai_failed`, `embedding_failed`,
`processing_failed`); then `retry_count >= 3` is rejected with "Maximum
retry attempts exceeded"; otherwise the row is reset to `uploaded` with
`retry_count + 1` and a cleared error message and re-queued. -/
def retryFileProcessing (status : String) (retryCount : Nat) : RetryResult :=
  if ¬ (status ∈ ["extraction_failed", "ai_failed", "embedding_failed", "processing_failed"]) then
    .rejectedStatus status
  else if 3 ≤ retryCount then .rejectedMaxRetries
  else .queued "uploaded" (retryCount + 1) none

/-! ### Embedding stage dispatch (`EmbeddingService.generate_embeddings`) -/

/-- The result dict of `generate_embeddings` (the fields the claims
mention). -/
structure EmbedResult where
  success : Bool
  chunkCount : Nat
  embeddingDimension : Nat
  message : Option String
  deriving DecidableEq, Repr

/-- Embeds the client dispatch at the top of
`EmbeddingService.generate_embeddings`: when no OpenAI client is
configured, the stage is skipped — the file status is set straight to
`review_pending` (`_update_file_status` with no `error_message` kwarg, so
the error column is untouched) and a successful zero-chunk result is
returned; the configured path (network and storage calls) is abstracted as
the continuation `rest`. -/
def generateEmbeddings (hasOpenAIClient : Bool) (f : ProcessingFileRec)
    (rest : ProcessingFileRec → ProcessingFileRec × EmbedResult) :
    ProcessingFileRec × EmbedResult :=
  if ¬ hasOpenAIClient then
    ({ f with status := "review_pending" },
      ⟨true, 0, 0, some "Embeddings skipped - no OpenAI API key"⟩)
  else rest f

/-! ### Upload duplicate pre-check (`FileService._process_single_file`) -/

/-- The columns of a `documents` row read by the duplicate pre-check. -/
structure DocRow where
  id : Nat
  contentHash : String
  isDeleted : Bool
  title : String
  deriving DecidableEq, Repr

/-- The columns of a `processing_files` row read by the duplicate
pre-check. -/
structure PFRow where
  id : Nat
  contentHash : String
  status : String
  originalFilename : String
  deriving DecidableEq, Repr

/-- The slice of the content store that `_process_single_file` reads and
writes: the two tables plus the blob-storage paths. -/
structure UploadState where
  documents : List DocRow
  processingFiles : List PFRow
  storagePaths : List String
  deriving DecidableEq, Repr

/-- The observable outcome of `_process_single_file`. -/
inductive UploadOutcome where
  | invalid
  | duplicateDoc (existingId : Nat)
  | duplicatePF (existingId : Nat)
  | uploaded (docId : Nat) (pfId : Nat) (storagePath : String)
  deriving DecidableEq, Repr

/-- Whether an outcome is the duplicate-rejection branch
(`is_duplicate: True` in the returned dict). -/
def UploadOutcome.isDuplicate : UploadOutcome → Bool
  | .duplicateDoc _ => true
  | .duplicatePF _ => true
  | _ => false

/-- The processing-file statuses excluded from the duplicate pre-check's
second query (`.not_.in_("status", [...])` in the source). -/
def duplicateExcludedStatuses : List String :=
  ["failed", "extraction_failed", "duplicate", "cancelled"]

/-- Embeds `FileService._process_single_file` around the duplicate
pre-check: after validation (abstracted as the boolean `valid`, checked
before anything else), the non-deleted documents and the
not-failed/duplicate/cancelled processing files with the same content hash
are queried; if either query is non-empty the upload is rejected as a
duplicate referencing the first conflicting row, *before* the storage
upload and the two inserts; otherwise the blob is written and the document
and processing-file rows inserted.  The generated ids, storage path and
filename stand in for `uuid4()` and its derived values. -/
def processSingleFile (st : UploadState) (valid : Bool) (contentHash : String)
    (storagePath : String) (docId pfId : Nat) (filename : String) :
    UploadState × UploadOutcome :=
  if ¬ valid then (st, .invalid)
  else
    let existingDocuments := st.documents.filter
      (fun d => d.contentHash == contentHash && d.isDeleted == false)
    let existingProcessing := st.processingFiles.filter
      (fun p => p.contentHash == contentHash
        && ¬ (p.status ∈ duplicateExcludedStatuses))
    match existingDocuments with
    | d :: _ => (st, .duplicateDoc d.id)
    | [] =>
      match existingProcessing with
      | p :: _ => (st, .duplicatePF p.id)
      | [] =>
        ({ documents := st.documents ++ [⟨docId, contentHash, false, filename⟩],
           processingFiles := st.processingFiles ++ [⟨pfId, contentHash, "uploaded", filename⟩],
           storagePaths := st.storagePaths ++ [storagePath] },
          .uploaded docId pfId storagePath)

/-! ### Metadata edit (`app/api/documents.py`, `update_document_metadata`) -/

/-- The `DocumentUpdate` request model: every field optional; only the
provided fields are written. -/
structure DocumentUpdatePatch where
  title : Option String
  docType : Option String
  docCategory : Option String
  authors : Option (List String)
  citation : Option String
  summary : Option String
  caseName : Option String
  caseNumber : Option String
  court : Option String
  jurisdiction : Option String
  practiceArea : Option String
  date : Option String
  deriving DecidableEq, Repr

/-- The `update_data` construction of `update_document_metadata`: each
provided field overwrites the column; `authors` is serialised as a
comma-joined string, or `NULL` when the provided list is empty
(`", ".join(metadata.authors) if metadata.authors else None`). -/
def applyDocumentPatch (d : DocumentRec) (patch : DocumentUpdatePatch) : DocumentRec :=
  let d := match patch.title with | some v => { d with title := some v } | none => d
  let d := match patch.docType with | some v => { d with docType := some v } | none => d
  let d := match patch.docCategory with | some v => { d with docCategory := some v } | none => d
  let d := match patch.authors with
    | some [] => { d with authors := none }
    | some (a :: rest) => { d with authors := some (String.intercalate ", " (a :: rest)) }
    | none => d
  let d := match patch.citation with | some v => { d with citation := some v } | none => d
  let d := match patch.summary with | some v => { d with summary := some v } | none => d
  let d := match patch.caseName with | some v => { d with caseName := some v } | none => d
  let d := match patch.caseNumber with | some v => { d with caseNumber := some v } | none => d
  let d := match patch.court with | some v => { d with court := some v } | none => d
  let d := match patch.jurisdiction with | some v => { d with jurisdiction := some v } | none => d
  let d := match patch.practiceArea with | some v => { d with practiceArea := some v } | none => d
  let d := match patch.date with | some v => { d with date := some v } | none => d
  d

/-- The HTTP-level outcome of `update_document_metadata` together with the
post-states of the document and its processing file. -/
structure UpdateMetadataOutcome where
  statusCode : Nat
  doc : DocumentRec
  pf : ProcessingFileRec
  deriving DecidableEq, Repr

/-- Embeds `update_document_metadata` (the document is passed in, standing
for the existence check having succeeded): an already-reviewed document is
rejected with a 400 conflict error before any write; otherwise the patch is
applied to the document and the processing-file row is flipped to
`under_review` with the reviewer recorded. -/
def updateDocumentMetadata (d : DocumentRec) (pf : ProcessingFileRec)
    (patch : DocumentUpdatePatch) (userId : String) : UpdateMetadataOutcome :=
  if d.isReviewed then ⟨400, d, pf⟩
  else
    ⟨200, applyDocumentPatch d patch,
      { pf with status := "under_review", reviewedBy := some userId }⟩

/-! ### Metadata merge (`AIService._extract_metadata_with_ai` and
`AIService._save_metadata`) -/

/-- Python truthiness of an optional list-valued dict entry: truthy iff
present and non-empty. -/
def optListTruthy : Option (List String) → Bool
  | some (_ :: _) => true
  | _ => false

/-- Python truthiness of an optional string-valued dict entry: truthy iff
present and non-empty. -/
def optStrTruthy : Option String → Bool
  | some s => !s.isEmpty
  | none => false

/-- The regex substitution `re.sub(r"\.[^.]+$", "", filename)` of
`_extract_title_from_filename`: remove the final dot-extension when the
last dot is followed by at least one character. -/
def removeExtension (s : String) : String :=
  let cs := s.toList
  match cs.reverse.findIdx? (fun c => c == '.') with
  | none => s
  | some 0 => s
  | some (i + 1) => String.mk (cs.take (cs.length - (i + 2)))

/-- Python `str.split()` (no argument): the maximal runs of
non-whitespace characters. -/
def pyWordsAux : List Char → List Char → List (List Char)
  | [], cur => if cur.isEmpty then [] else [cur.reverse]
  | c :: rest, cur =>
    if pyWs c then
      if cur.isEmpty then pyWordsAux rest []
      else cur.reverse :: pyWordsAux rest []
    else pyWordsAux rest (c :: cur)

/-- Python `str.split()` on a char list. -/
def pyWords (cs : List Char) : List (List Char) := pyWordsAux cs []

/-- Python `str.title()` restricted to ASCII letters: a letter is
uppercased when the previous character is not a letter, lowercased
otherwise. -/
def pyTitleAux : Bool → List Char → List Char
  | _, [] => []
  | prev, c :: rest =>
    if c.isAlpha then (if prev then c.toLower else c.toUpper) :: pyTitleAux true rest
    else c :: pyTitleAux false rest

/-- Embeds `AIService._extract_title_from_filename`: drop the extension, turn
underscores and hyphens into spaces, collapse whitespace runs, and
title-case the result. -/
def extractTitleFromFilename (filename : String) : String :=
  let s1 := removeExtension filename
  let s2 := String.mk (s1.toList.map (fun c => if c == '_' || c == '-' then ' ' else c))
  let s3 := String.intercalate " " ((pyWords s2.toList).map String.mk)
  String.mk (pyTitleAux false s3.toList)

/-- Python `dict.fromkeys` de-duplication: keep the first occurrence of
each element, in order. -/
def pyDedupAux (seen : List String) : List String → List String
  | [] => []
  | a :: t => if a ∈ seen then pyDedupAux seen t else a :: pyDedupAux (a :: seen) t

/-- Python `list(dict.fromkeys(l))`. -/
def pyDedup (l : List String) : List String := pyDedupAux [] l

/-- The metadata dict as returned by `_validate_metadata` and then mutated
by the merge: the nine validated keys (the numeric `confidence_scores`
sub-dict is carried through untouched by the merge and is omitted), plus
the supplementary keys the merge may add (`court`, `identified_amounts`,
`identified_rates`, `case_citations`), absent (`none`) until set.
Discount-rate values are floats in the source; the merge copies them
opaquely, so they are carried as their literal strings. -/
structure AIMetadata where
  title : String
  authors : List String
  publicationDate : Option String
  docType : String
  docCategory : String
  description : String
  keywords : List String
  bluebookCitation : Option String
  court : Option String
  identifiedAmounts : Option (List String)
  identifiedRates : Option (List String)
  caseCitations : Option (List String)
  deriving DecidableEq, Repr

/-- The output dict of `AIService._extract_pattern_metadata`: each key
present (`some`, and then non-empty) only when its regex matched. -/
structure PatternMetadata where
  dollarAmounts : Option (List String)
  potentialDiscountRates : Option (List String)
  caseNames : Option (List String)
  extractedDates : Option (List String)
  court : Option String
  deriving DecidableEq, Repr

/-- The keyword enhancement of the merge: for the first two pattern case
names, `case.replace(" v. ", " ").split()` filtered to parties longer than
2 characters. -/
def casePartyKeywords (caseNames : List String) : List String :=
  (caseNames.take 2).flatMap (fun c =>
    ((pyWords ((c.replace " v. " " ").toList)).map String.mk).filter
      (fun p => 2 < p.length))

/-- The merge portion of `AIService._extract_metadata_with_ai` (after a
successful AI result): title fallback from the filename, the pattern
dollar amounts / discount rates / case names copied into the supplementary
keys when truthy, the pattern court only when the AI court is absent, and
the keyword list extended with case parties then de-duplicated and capped
at 10. -/
def combineMetadata (m0 : AIMetadata) (pm : PatternMetadata)
    (filename : String) : AIMetadata :=
  let m1 := if m0.title.isEmpty || m0.title == "Unknown Title" || m0.title == filename
    then { m0 with title := extractTitleFromFilename filename } else m0
  let m2 := if optListTruthy pm.dollarAmounts
    then { m1 with identifiedAmounts := pm.dollarAmounts } else m1
  let m3 := if optListTruthy pm.potentialDiscountRates
    then { m2 with identifiedRates := pm.potentialDiscountRates } else m2
  let m4 := if optListTruthy pm.caseNames
    then { m3 with caseCitations := pm.caseNames } else m3
  let m5 := if optStrTruthy pm.court && !(optStrTruthy m4.court)
    then { m4 with court := pm.court } else m4
  let kws := m5.keywords ++
    (if optListTruthy pm.caseNames then casePartyKeywords (pm.caseNames.getD []) else [])
  { m5 with keywords := (pyDedup kws).take 10 }

/-- The value persisted in the `ai_bluebook_citation` column: a JSON value
that is either a list (from `case_citations`), a string (from
`bluebook_citation`), or null. -/
inductive CitationVal where
  | listVal (xs : List String)
  | strVal (s : String)
  | nullVal
  deriving DecidableEq, Repr

/-- The expression `metadata.get("case_citations") or
metadata["bluebook_citation"]` of `_save_metadata`: the pattern case
citations when truthy, else the LLM bluebook citation (whatever its own
truthiness). -/
def savedCitation (m : AIMetadata) : CitationVal :=
  match m.caseCitations with
  | some (x :: xs) => .listVal (x :: xs)
  | _ =>
    match m.bluebookCitation with
    | some s => .strVal s
    | none => .nullVal

/-- The `update_data` row written by `AIService._save_metadata` onto the
`processing_files` record (the `ai_confidence_scores` column, carried
through unchanged, is omitted). -/
structure SavedMetadata where
  aiTitle : String
  aiAuthors : List String
  aiPublicationDate : Option String
  aiDocType : String
  aiDocCategory : String
  aiDescription : String
  aiKeywords : List String
  aiBluebookCitation : CitationVal
  aiCourt : Option String
  aiIdentifiedAmounts : Option (List String)
  aiIdentifiedRates : Option (List String)
  deriving DecidableEq, Repr

/-- Embeds `AIService._save_metadata` as the row it persists. -/
def saveMetadata (m : AIMetadata) : SavedMetadata :=
  { aiTitle := m.title
    aiAuthors := m.authors
    aiPublicationDate := m.publicationDate
    aiDocType := m.docType
    aiDocCategory := m.docCategory
    aiDescription := m.description
    aiKeywords := m.keywords
    aiBluebookCitation := savedCitation m
    aiCourt := m.court
    aiIdentifiedAmounts := m.identifiedAmounts
    aiIdentifiedRates := m.identifiedRates }

/-! ### Claim theorem for batch completion (C1) -/

/-- The claim's completed-file counting rule: a file counts as completed
iff its status is `review_pending` or `approved`. -/
def claimCompletedCount (files : List FileStatus) : Nat :=
  files.countP (fun f => f == FileStatus.reviewPending || f == FileStatus.approved)

/-- The claim's failed-file counting rule: a file counts as failed iff its
status is one of the four `*_failed` statuses named by the claim. -/
def claimFailedCount (files : List FileStatus) : Nat :=
  files.countP (fun f =>
    ["extraction_failed", "analysis_failed", "embedding_failed",
      "processing_failed"].contains f.val)

theorem countP_disjoint_add {α : Type} (p q : α → Bool) (l : List α)
    (h : ∀ a : α, p a = true → q a = false) :
    l.countP p + l.countP q = l.countP (fun a => p a || q a) := by
  induction l with
  | nil => rfl
  | cons a t ih =>
    simp only [List.countP_cons]
    by_cases hp : p a = true
    · have hq := h a hp
      simp only [hp, hq]
      simp
      omega
    · have hp2 : p a = false := by
        revert hp
        cases p a <;> simp
      by_cases hq : q a = true
      · simp only [hp2, hq]
        simp
        omega
      · have hq2 : q a = false := by
          revert hq
          cases q a <;> simp
        simp only [hp2, hq2]
        simp
        omega

theorem count_map_val (files : List FileStatus) (s : String) :
    (files.map FileStatus.val).count s = files.countP (fun f => f.val == s) := by
  rw [List.count_eq_countP, List.countP_map]
  rfl

theorem completed_count_eq (files : List FileStatus) :
    (files.map FileStatus.val).count "review_pending"
      + (files.map FileStatus.val).count "approved"
    = claimCompletedCount files := by
  rw [count_map_val, count_map_val,
    countP_disjoint_add _ _ _ (by intro a h1; cases a <;> revert h1 <;> decide)]
  exact List.countP_congr (fun f _ => by cases f <;> decide)

theorem failed_count_eq (files : List FileStatus) :
    (files.map FileStatus.val).count "extraction_failed"
      + (files.map FileStatus.val).count "analysis_failed"
      + (files.map FileStatus.val).count "embedding_failed"
    = claimFailedCount files := by
  rw [count_map_val, count_map_val, count_map_val,
    countP_disjoint_add _ _ _ (by intro a h1; cases a <;> revert h1 <;> decide),
    countP_disjoint_add _ _ _ (by intro a h1; cases a <;> revert h1 <;> decide)]
  exact List.countP_congr (fun f _ => by cases f <;> decide)

/-- C1: for every non-empty batch whose files carry `FileStatus` values,
`_check_batch_completion` counts a file as completed iff its status is
`review_pending` or `approved` and as failed iff its status is one of the
claim's four `*_failed` statuses (over the status enum these coincide with
the three the code counts, since no enum member has value
`processing_failed`); it writes a batch update exactly when
`total − completed − failed = 0`, choosing `processing_complete` when no
file failed, `partially_completed` when some failed and some completed,
and `failed` when none completed, recording the two counts. -/
theorem batch_completion_aggregation (files : List FileStatus) (hne : files ≠ []) :
    (files.length = claimCompletedCount files + claimFailedCount files →
      checkBatchCompletion (files.map FileStatus.val) =
        some ⟨if claimFailedCount files = 0 then "processing_complete"
              else if 0 < claimCompletedCount files then "partially_completed"
              else "failed",
              claimCompletedCount files, claimFailedCount files⟩) ∧
    (files.length ≠ claimCompletedCount files + claimFailedCount files →
      checkBatchCompletion (files.map FileStatus.val) = none) := by
  have hc := completed_count_eq files
  have hf := failed_count_eq files
  have hmapne : files.map FileStatus.val ≠ [] := by
    simpa using hne
  constructor
  · intro h
    simp only [checkBatchCompletion]
    rw [if_neg hmapne, hc, hf, List.length_map, if_pos (by omega)]
  · intro h
    simp only [checkBatchCompletion]
    rw [if_neg hmapne, hc, hf, List.length_map, if_neg (by omega)]

/-- Witness for C1 at the spec's scenario: a batch of three files, two in
`review_pending` and one in `extraction_failed`, resolves to
`partially_completed` with counts 2 and 1. -/
theorem batch_completion_aggregation_witness :
    ([FileStatus.reviewPending, FileStatus.reviewPending,
        FileStatus.extractionFailed] ≠ ([] : List FileStatus)) ∧
    checkBatchCompletion ([FileStatus.reviewPending, FileStatus.reviewPending,
        FileStatus.extractionFailed].map FileStatus.val) =
      some ⟨if claimFailedCount [FileStatus.reviewPending, FileStatus.reviewPending,
              FileStatus.extractionFailed] = 0 then "processing_complete"
            else if 0 < claimCompletedCount [FileStatus.reviewPending,
              FileStatus.reviewPending, FileStatus.extractionFailed] then
              "partially_completed"
            else "failed",
            claimCompletedCount [FileStatus.reviewPending, FileStatus.reviewPending,
              FileStatus.extractionFailed],
            claimFailedCount [FileStatus.reviewPending, FileStatus.reviewPending,
              FileStatus.extractionFailed]⟩ :=
  ⟨by decide,
    (batch_completion_aggregation
      [FileStatus.reviewPending, FileStatus.reviewPending, FileStatus.extractionFailed]
      (by decide)).1 (by decide)⟩

/-! ### Claim theorems for the review gateway (C4) -/

/-- C4, counterexample to the reject half: `reject_file` performs no
status check, so rejecting a file whose status is `approved` (not
`review_pending`) still returns success. -/
theorem reject_no_gate_counterexample :
    (⟨"approved", some "doc-1", 0, none, none, none, "h1"⟩ :
        ProcessingFileRec).status ≠ "review_pending" ∧
    (rejectFile ⟨"approved", some "doc-1", 0, none, none, none, "h1"⟩
        "reviewer-1" "bad scan").1 = true := by
  constructor
  · decide
  · rfl

/-- C4 (amended): `approve` succeeds only from `review_pending` (and with a
linked document), returning an error with no file or document mutation
otherwise; approving twice returns success the first time (file `approved`,
document reviewed) and a not-in-review_pending error the second time with
no further mutation; `reject`, however, performs no status check — it
succeeds from any status, setting the file to `rejected` (it never touches
the document row). -/
theorem review_gating (f : ProcessingFileRec) (d : DocumentRec)
    (rid : String) (notes : Option String) (reason : String) :
    (f.status ≠ "review_pending" →
      (approveFileForLibrary f d rid notes).success = false ∧
      (approveFileForLibrary f d rid notes).doc = d ∧
      (approveFileForLibrary f d rid notes).file = f) ∧
    (∀ did, f.documentId = some did → f.status = "review_pending" →
      (approveFileForLibrary f d rid notes).success = true ∧
      (approveFileForLibrary f d rid notes).doc.isReviewed = true ∧
      (approveFileForLibrary f d rid notes).file.status = "approved" ∧
      (approveFileForLibrary (approveFileForLibrary f d rid notes).file
          (approveFileForLibrary f d rid notes).doc rid notes).success = false ∧
      (approveFileForLibrary (approveFileForLibrary f d rid notes).file
          (approveFileForLibrary f d rid notes).doc rid notes).doc =
        (approveFileForLibrary f d rid notes).doc ∧
      (approveFileForLibrary (approveFileForLibrary f d rid notes).file
          (approveFileForLibrary f d rid notes).doc rid notes).file =
        (approveFileForLibrary f d rid notes).file) ∧
    ((rejectFile f rid reason).1 = true ∧
      (rejectFile f rid reason).2.status = "rejected") := by
  refine ⟨?_, ?_, rfl, rfl⟩
  · intro hst
    cases hdoc : f.documentId with
    | none => simp [approveFileForLibrary, hdoc]
    | some did =>
      simp only [approveFileForLibrary, hdoc]
      rw [if_pos hst]
      exact ⟨rfl, rfl, rfl⟩
  · intro did hdoc hst
    simp only [approveFileForLibrary, hdoc]
    rw [if_neg (by simp [hst])]
    refine ⟨rfl, rfl, rfl, ?_, ?_, ?_⟩ <;>
      · simp only [approveFileForLibrary, hdoc]
        rw [if_pos (by decide)]

/-- Witness for C4's amended theorem: a file in `review_pending` linked to
a document, plus the same file observed in the `approved` status. -/
theorem review_gating_witness :
    ((⟨"approved", some "d1", 0, none, none, none, "h1"⟩ :
        ProcessingFileRec).status ≠ "review_pending" ∧
      (approveFileForLibrary ⟨"approved", some "d1", 0, none, none, none, "h1"⟩
        ⟨false, false, none, none, "h1", none, none, none, none, none, none,
          none, none, none, none, none, none⟩ "r1" none).success = false ∧
      (approveFileForLibrary ⟨"approved", some "d1", 0, none, none, none, "h1"⟩
        ⟨false, false, none, none, "h1", none, none, none, none, none, none,
          none, none, none, none, none, none⟩ "r1" none).doc =
        ⟨false, false, none, none, "h1", none, none, none, none, none, none,
          none, none, none, none, none, none⟩ ∧
      (approveFileForLibrary ⟨"approved", some "d1", 0, none, none, none, "h1"⟩
        ⟨false, false, none, none, "h1", none, none, none, none, none, none,
          none, none, none, none, none, none⟩ "r1" none).file =
        ⟨"approved", some "d1", 0, none, none, none, "h1"⟩) ∧
    ((⟨"review_pending", some "d1", 0, none, none, none, "h1"⟩ :
        ProcessingFileRec).documentId = some "d1" ∧
      (approveFileForLibrary ⟨"review_pending", some "d1", 0, none, none, none, "h1"⟩
        ⟨false, false, none, none, "h1", none, none, none, none, none, none,
          none, none, none, none, none, none⟩ "r1" none).success = true) :=
  ⟨⟨by decide,
    (review_gating ⟨"approved", some "d1", 0, none, none, none, "h1"⟩
      ⟨false, false, none, none, "h1", none, none, none, none, none, none,
        none, none, none, none, none, none⟩ "r1" none "why").1 (by decide)⟩,
   ⟨rfl,
    ((review_gating ⟨"review_pending", some "d1", 0, none, none, none, "h1"⟩
      ⟨false, false, none, none, "h1", none, none, none, none, none, none,
        none, none, none, none, none, none⟩ "r1" none "why").2.1 "d1" rfl rfl).1⟩⟩

/-! ### Claim theorem for the retry endpoint (C6) -/

/-- C6 (code-bug evidence): the analysis stage records failures with the
status `analysis_failed` (`FileStatus.ANALYSIS_FAILED`, the only analysis
failure status in the enum), but the retry endpoint's allowed list contains
the stale string `ai_failed` instead, so a file that failed metadata
analysis with a fresh retry budget is rejected as non-retryable; the
retry-budget branch itself behaves as claimed on the statuses the endpoint
does accept. -/
theorem retry_rejects_analysis_failed :
    retryFileProcessing (FileStatus.analysisFailed.val) 0 =
      RetryResult.rejectedStatus "analysis_failed" ∧
    retryFileProcessing "extraction_failed" 3 = RetryResult.rejectedMaxRetries ∧
    retryFileProcessing "extraction_failed" 2 =
      RetryResult.queued "uploaded" 3 none := by
  refine ⟨by decide, by decide, by decide⟩

/-! ### Claim theorem for the embedding-provider skip (C7) -/

/-- C7: when the embedding client is not configured,
`generate_embeddings` returns success with `chunk_count = 0`, advances the
file directly to `review_pending`, and leaves the error-message column
untouched, whatever the configured-path continuation would have done. -/
theorem embeddings_skip_when_unconfigured (f : ProcessingFileRec)
    (rest : ProcessingFileRec → ProcessingFileRec × EmbedResult) :
    (generateEmbeddings false f rest).2.success = true ∧
    (generateEmbeddings false f rest).2.chunkCount = 0 ∧
    (generateEmbeddings false f rest).1.status = "review_pending" ∧
    (generateEmbeddings false f rest).1.errorMessage = f.errorMessage :=
  ⟨rfl, rfl, rfl, rfl⟩

/-! ### Claim theorems for the metadata-edit gate (C9) -/

/-- C9: editing a reviewed document is rejected with a conflict-style 400
error and mutates neither the document nor the processing file; editing an
unreviewed document applies the patch and flips the processing file to
`under_review`. -/
theorem metadata_edit_gating (d : DocumentRec) (pf : ProcessingFileRec)
    (patch : DocumentUpdatePatch) (uid : String) :
    (d.isReviewed = true →
      (updateDocumentMetadata d pf patch uid).statusCode = 400 ∧
      (updateDocumentMetadata d pf patch uid).doc = d ∧
      (updateDocumentMetadata d pf patch uid).pf = pf) ∧
    (d.isReviewed = false →
      (updateDocumentMetadata d pf patch uid).statusCode = 200 ∧
      (updateDocumentMetadata d pf patch uid).doc = applyDocumentPatch d patch ∧
      (updateDocumentMetadata d pf patch uid).pf.status = "under_review") := by
  constructor <;> intro h <;> simp [updateDocumentMetadata, h]

/-- Witness for C9 at a concrete reviewed document and a concrete
unreviewed one. -/
theorem metadata_edit_gating_witness :
    ((updateDocumentMetadata
        ⟨true, false, none, none, "h1", none, none, none, none, none, none,
          none, none, none, none, none, none⟩
        ⟨"review_pending", some "d1", 0, none, none, none, "h1"⟩
        ⟨none, none, none, none, none, none, none, none, none, none, none, none⟩
        "u1").statusCode = 400) ∧
    ((updateDocumentMetadata
        ⟨false, false, none, none, "h1", none, none, none, none, none, none,
          none, none, none, none, none, none⟩
        ⟨"review_pending", some "d1", 0, none, none, none, "h1"⟩
        ⟨none, none, none, none, none, none, none, none, none, none, none, none⟩
        "u1").statusCode = 200) :=
  ⟨((metadata_edit_gating
      ⟨true, false, none, none, "h1", none, none, none, none, none, none,
        none, none, none, none, none, none⟩
      ⟨"review_pending", some "d1", 0, none, none, none, "h1"⟩
      ⟨none, none, none, none, none, none, none, none, none, none, none, none⟩
      "u1").1 rfl).1,
   ((metadata_edit_gating
      ⟨false, false, none, none, "h1", none, none, none, none, none, none,
        none, none, none, none, none, none⟩
      ⟨"review_pending", some "d1", 0, none, none, none, "h1"⟩
      ⟨none, none, none, none, none, none, none, none, none, none, none, none⟩
      "u1").2 rfl).1⟩

/-! ### Claim theorem for duplicate rejection (C8) -/

/-- The claim's notion of a processing file in a failed / duplicate /
cancelled state (every failed-family status plus `duplicate` and
`cancelled`); it contains the code's exclusion list, so a file outside it
is also outside the code's. -/
def claimDupExcluded : List String :=
  ["failed", "upload_failed", "extraction_failed", "analysis_failed",
    "embedding_failed", "duplicate", "cancelled"]

/-- C8: a valid upload whose content hash matches a non-deleted document,
or a processing file not in a failed/duplicate/cancelled state, is rejected
as a duplicate referencing a conflicting record, and the store is left
entirely unchanged — no blob write, no document insert, no
processing-file insert. -/
theorem duplicate_upload_rejected (st : UploadState)
    (contentHash storagePath filename : String) (docId pfId : Nat)
    (hdup : (∃ d ∈ st.documents, d.contentHash = contentHash ∧ d.isDeleted = false) ∨
      (∃ p ∈ st.processingFiles, p.contentHash = contentHash ∧
        p.status ∉ claimDupExcluded)) :
    (processSingleFile st true contentHash storagePath docId pfId filename).1 = st ∧
    (processSingleFile st true contentHash storagePath docId pfId filename).2.isDuplicate
      = true ∧
    (∀ i, (processSingleFile st true contentHash storagePath docId pfId filename).2 =
        UploadOutcome.duplicateDoc i →
      ∃ d ∈ st.documents, d.id = i ∧ d.contentHash = contentHash ∧ d.isDeleted = false) ∧
    (∀ i, (processSingleFile st true contentHash storagePath docId pfId filename).2 =
        UploadOutcome.duplicatePF i →
      ∃ p ∈ st.processingFiles, p.id = i ∧ p.contentHash = contentHash ∧
        p.status ∉ duplicateExcludedStatuses) := by
  simp only [processSingleFile]
  rw [if_neg (by simp)]
  cases hfd : st.documents.filter
      (fun d => d.contentHash == contentHash && d.isDeleted == false) with
  | cons d0 t0 =>
    have hd0 : d0 ∈ st.documents.filter
        (fun d => d.contentHash == contentHash && d.isDeleted == false) := by
      rw [hfd]
      exact List.mem_cons_self _ _
    have hd0' := List.mem_filter.mp hd0
    refine ⟨rfl, rfl, ?_, ?_⟩
    · intro i hi
      have : d0.id = i := by
        injection hi
      exact ⟨d0, hd0'.1, this, by simpa using hd0'.2⟩
    · intro i hi
      simp at hi
  | nil =>
    cases hfp : st.processingFiles.filter
        (fun p => p.contentHash == contentHash
          && ¬ (p.status ∈ duplicateExcludedStatuses)) with
    | cons p0 t0 =>
      have hp0 : p0 ∈ st.processingFiles.filter
          (fun p => p.contentHash == contentHash
            && ¬ (p.status ∈ duplicateExcludedStatuses)) := by
        rw [hfp]
        exact List.mem_cons_self _ _
      have hp0' := List.mem_filter.mp hp0
      refine ⟨rfl, rfl, ?_, ?_⟩
      · intro i hi
        simp at hi
      · intro i hi
        have hid : p0.id = i := by
          injection hi
        have hprops := hp0'.2
        simp only [Bool.and_eq_true, beq_iff_eq, decide_eq_true_eq] at hprops
        exact ⟨p0, hp0'.1, hid, hprops.1, by simpa using hprops.2⟩
    | nil =>
      exfalso
      rcases hdup with ⟨d, hd, hh, hdel⟩ | ⟨p, hp, hh, hst⟩
      · have : d ∈ st.documents.filter
            (fun d => d.contentHash == contentHash && d.isDeleted == false) :=
          List.mem_filter.mpr ⟨hd, by simp [hh, hdel]⟩
        rw [hfd] at this
        exact absurd this (List.not_mem_nil d)
      · have hnotex : p.status ∉ duplicateExcludedStatuses := by
          intro hmem
          apply hst
          simp only [duplicateExcludedStatuses, List.mem_cons,
            List.not_mem_nil, or_false] at hmem
          simp only [claimDupExcluded, List.mem_cons]
          tauto
        have : p ∈ st.processingFiles.filter
            (fun p => p.contentHash == contentHash
              && ¬ (p.status ∈ duplicateExcludedStatuses)) :=
          List.mem_filter.mpr ⟨hp, by simp [hh, hnotex]⟩
        rw [hfp] at this
        exact absurd this (List.not_mem_nil p)

/-- Witness for C8: a store holding one non-deleted document with hash
`"h1"`, and an upload of the same hash. -/
theorem duplicate_upload_rejected_witness :
    ((∃ d ∈ (⟨[⟨7, "h1", false, "old.pdf"⟩], [], []⟩ : UploadState).documents,
        d.contentHash = "h1" ∧ d.isDeleted = false) ∨
      (∃ p ∈ (⟨[⟨7, "h1", false, "old.pdf"⟩], [], []⟩ : UploadState).processingFiles,
        p.contentHash = "h1" ∧ p.status ∉ claimDupExcluded)) ∧
    (processSingleFile ⟨[⟨7, "h1", false, "old.pdf"⟩], [], []⟩
        true "h1" "uploads/x" 8 9 "new.pdf").1 =
      (⟨[⟨7, "h1", false, "old.pdf"⟩], [], []⟩ : UploadState) ∧
    (processSingleFile ⟨[⟨7, "h1", false, "old.pdf"⟩], [], []⟩
        true "h1" "uploads/x" 8 9 "new.pdf").2.isDuplicate = true :=
  ⟨Or.inl ⟨⟨7, "h1", false, "old.pdf"⟩, by decide, rfl, rfl⟩,
    (duplicate_upload_rejected ⟨[⟨7, "h1", false, "old.pdf"⟩], [], []⟩
      "h1" "uploads/x" "new.pdf" 8 9
      (Or.inl ⟨⟨7, "h1", false, "old.pdf"⟩, by decide, rfl, rfl⟩)).1,
    (duplicate_upload_rejected ⟨[⟨7, "h1", false, "old.pdf"⟩], [], []⟩
      "h1" "uploads/x" "new.pdf" 8 9
      (Or.inl ⟨⟨7, "h1", false, "old.pdf"⟩, by decide, rfl, rfl⟩)).2.1⟩

/-! ### Claim theorems for the metadata merge (C5) -/

theorem combine_court_eq (m : AIMetadata) (pm : PatternMetadata) (fn : String) :
    (combineMetadata m pm fn).court =
      (if optStrTruthy pm.court && !(optStrTruthy m.court) then pm.court
       else m.court) := by
  simp only [combineMetadata]
  split <;> split <;> split <;> split <;> split <;> simp_all

theorem combine_identifiedAmounts_eq (m : AIMetadata) (pm : PatternMetadata)
    (fn : String) :
    (combineMetadata m pm fn).identifiedAmounts =
      (if optListTruthy pm.dollarAmounts then pm.dollarAmounts
       else m.identifiedAmounts) := by
  simp only [combineMetadata]
  split <;> split <;> split <;> split <;> split <;> simp_all

theorem combine_identifiedRates_eq (m : AIMetadata) (pm : PatternMetadata)
    (fn : String) :
    (combineMetadata m pm fn).identifiedRates =
      (if optListTruthy pm.potentialDiscountRates then pm.potentialDiscountRates
       else m.identifiedRates) := by
  simp only [combineMetadata]
  split <;> split <;> split <;> split <;> split <;> simp_all

theorem combine_caseCitations_eq (m : AIMetadata) (pm : PatternMetadata)
    (fn : String) :
    (combineMetadata m pm fn).caseCitations =
      (if optListTruthy pm.caseNames then pm.caseNames else m.caseCitations) := by
  simp only [combineMetadata]
  split <;> split <;> split <;> split <;> split <;> simp_all

theorem combine_bluebook_eq (m : AIMetadata) (pm : PatternMetadata)
    (fn : String) :
    (combineMetadata m pm fn).bluebookCitation = m.bluebookCitation := by
  simp only [combineMetadata]
  split <;> split <;> split <;> split <;> split <;> simp_all

/-- C5, counterexample: the LLM supplied a non-absent `bluebook_citation`,
pattern extraction found a case name, and the persisted
`ai_bluebook_citation` is the regex-derived case-citation list, not the
LLM's value — the regex signal overrode a non-absent LLM field. -/
theorem metadata_merge_citation_counterexample :
    optStrTruthy (⟨"T", [], none, "other", "Other", "", [],
        some "Smith v. Jones, 1 U.S. 1 (1800)", none, none, none, none⟩ :
          AIMetadata).bluebookCitation = true ∧
    (saveMetadata (combineMetadata
        ⟨"T", [], none, "other", "Other", "", [],
          some "Smith v. Jones, 1 U.S. 1 (1800)", none, none, none, none⟩
        ⟨none, none, some ["Foo v. Bar"], none, none⟩
        "brief.pdf")).aiBluebookCitation ≠
      CitationVal.strVal "Smith v. Jones, 1 U.S. 1 (1800)" ∧
    (saveMetadata (combineMetadata
        ⟨"T", [], none, "other", "Other", "", [],
          some "Smith v. Jones, 1 U.S. 1 (1800)", none, none, none, none⟩
        ⟨none, none, some ["Foo v. Bar"], none, none⟩
        "brief.pdf")).aiBluebookCitation =
      CitationVal.listVal ["Foo v. Bar"] := by
  refine ⟨rfl, ?_, ?_⟩
  · rw [show (saveMetadata (combineMetadata _ _ _)).aiBluebookCitation =
      savedCitation (combineMetadata _ _ _) from rfl]
    rw [savedCitation, combine_caseCitations_eq]
    decide
  · rw [show (saveMetadata (combineMetadata _ _ _)).aiBluebookCitation =
      savedCitation (combineMetadata _ _ _) from rfl]
    rw [savedCitation, combine_caseCitations_eq]
    decide

/-- C5 (amended): the merge keeps LLM precedence for `court` (the regex
court is used only when the LLM court is absent or empty) and stores the
regex dollar amounts and discount rates in separate supplementary fields
the LLM never populates; for citations, however, the persisted
`ai_bluebook_citation` takes the regex-derived case-citation list in
preference to the LLM's `bluebook_citation` whenever pattern extraction
found at least one case name; the LLM citation is persisted only when no
case name was pattern-extracted. -/
theorem metadata_merge_precedence (m : AIMetadata) (pm : PatternMetadata)
    (fn : String) :
    (optStrTruthy m.court = true →
      (combineMetadata m pm fn).court = m.court) ∧
    (optStrTruthy m.court = false → optStrTruthy pm.court = true →
      (combineMetadata m pm fn).court = pm.court) ∧
    (optListTruthy pm.dollarAmounts = true →
      (combineMetadata m pm fn).identifiedAmounts = pm.dollarAmounts) ∧
    (optListTruthy pm.potentialDiscountRates = true →
      (combineMetadata m pm fn).identifiedRates = pm.potentialDiscountRates) ∧
    (∀ x xs, pm.caseNames = some (x :: xs) →
      (saveMetadata (combineMetadata m pm fn)).aiBluebookCitation =
        CitationVal.listVal (x :: xs)) ∧
    (optListTruthy pm.caseNames = false → m.caseCitations = none →
      (saveMetadata (combineMetadata m pm fn)).aiBluebookCitation =
        (match m.bluebookCitation with
         | some s => CitationVal.strVal s
         | none => CitationVal.nullVal)) := by
  refine ⟨?_, ?_, ?_, ?_, ?_, ?_⟩
  · intro h
    rw [combine_court_eq]
    simp [h]
  · intro h1 h2
    rw [combine_court_eq]
    simp [h1, h2]
  · intro h
    rw [combine_identifiedAmounts_eq, if_pos h]
  · intro h
    rw [combine_identifiedRates_eq, if_pos h]
  · intro x xs h
    rw [show (saveMetadata (combineMetadata m pm fn)).aiBluebookCitation =
      savedCitation (combineMetadata m pm fn) from rfl]
    rw [savedCitation, combine_caseCitations_eq, h]
    simp [optListTruthy]
  · intro h1 h2
    rw [show (saveMetadata (combineMetadata m pm fn)).aiBluebookCitation =
      savedCitation (combineMetadata m pm fn) from rfl]
    rw [savedCitation, combine_caseCitations_eq, if_neg (by simp [h1]), h2,
      combine_bluebook_eq]

/-- Witness for C5's amended theorem at a concrete LLM result (with a
court and a bluebook citation) and a concrete pattern result (with a dollar
amount and no case names). -/
theorem metadata_merge_precedence_witness :
    (optStrTruthy (⟨"T", [], none, "other", "Other", "", [], some "Cite",
        some "Supreme Court", none, none, none⟩ : AIMetadata).court = true ∧
      (combineMetadata
        ⟨"T", [], none, "other", "Other", "", [], some "Cite",
          some "Supreme Court", none, none, none⟩
        ⟨some ["$1,000"], none, none, none, some "District Court"⟩
        "a.pdf").court =
        (⟨"T", [], none, "other", "Other", "", [], some "Cite",
          some "Supreme Court", none, none, none⟩ : AIMetadata).court) ∧
    (optListTruthy (⟨some ["$1,000"], none, none, none,
        some "District Court"⟩ : PatternMetadata).dollarAmounts = true ∧
      (combineMetadata
        ⟨"T", [], none, "other", "Other", "", [], some "Cite",
          some "Supreme Court", none, none, none⟩
        ⟨some ["$1,000"], none, none, none, some "District Court"⟩
        "a.pdf").identifiedAmounts = some ["$1,000"]) ∧
    (optListTruthy (⟨some ["$1,000"], none, none, none,
        some "District Court"⟩ : PatternMetadata).caseNames = false ∧
      (saveMetadata (combineMetadata
        ⟨"T", [], none, "other", "Other", "", [], some "Cite",
          some "Supreme Court", none, none, none⟩
        ⟨some ["$1,000"], none, none, none, some "District Court"⟩
        "a.pdf")).aiBluebookCitation = CitationVal.strVal "Cite") :=
  ⟨⟨rfl, (metadata_merge_precedence
      ⟨"T", [], none, "other", "Other", "", [], some "Cite",
        some "Supreme Court", none, none, none⟩
      ⟨some ["$1,000"], none, none, none, some "District Court"⟩
      "a.pdf").1 rfl⟩,
   ⟨rfl, (metadata_merge_precedence
      ⟨"T", [], none, "other", "Other", "", [], some "Cite",
        some "Supreme Court", none, none, none⟩
      ⟨some ["$1,000"], none, none, none, some "District Court"⟩
      "a.pdf").2.2.1 rfl⟩,
   ⟨rfl, (metadata_merge_precedence
      ⟨"T", [], none, "other", "Other", "", [], some "Cite",
        some "Supreme Court", none, none, none⟩
      ⟨some ["$1,000"], none, none, none, some "District Court"⟩
      "a.pdf").2.2.2.2.2 rfl rfl⟩⟩

end RagBackend
